import Mathlib

/-!
Shallow embedding of the spectral feature pipeline of `preprocess.py`
(`OnlinePreprocessor`) from the SERIL repository, together with proofs
about its specified properties.

All sizes are `Nat`, all signal values are real numbers; fallible code is
embedded with `Option`/`Except`.
-/

namespace Seril

/-! ### Python name resolution in `OnlinePreprocessor.__init__` (lines 40-54)

The constructor is modelled at the name-resolution level: each statement of
its body is transcribed as the list of names it reads and the list of local
names it binds, in source order.  Python raises `NameError` at the first
read of a name bound neither as a parameter, nor as an earlier local, nor
at module level, nor as a builtin. -/

/-- A Python error surfaced by the embedded code fragments. -/
inductive PyErr where
  | nameError : String → PyErr
deriving DecidableEq

/-- One Python statement, abstracted to the names it reads and the local
names it writes. -/
structure PyStmt where
  reads : List String
  writes : List String

/-- First name among `names` that is not bound in `scope`. -/
def findUnbound (scope names : List String) : Option String :=
  names.find? (fun n => ! scope.contains n)

/-- Execute statements in order, extending the local scope with each
assignment and stopping with `NameError` at the first unbound read. -/
def execStmts : List String → List PyStmt → Except PyErr Unit
  | _, [] => .ok ()
  | scope, s :: rest =>
    match findUnbound scope s.reads with
    | some n => .error (.nameError n)
    | none => execStmts (scope ++ s.writes) rest

/-- Parameter names of `__init__` (preprocess.py line 40), bound as locals
on entry regardless of the values passed. -/
def initParams : List String :=
  ["self", "sample_rate", "win_len", "hop_len", "n_freq", "n_mels", "n_mfcc",
   "feat_list", "kwargs"]

/-- Module-level names bound by `preprocess.py` (lines 1-11 imports, the
module-level `hann`, and the definitions `read`, `adnoise`,
`OnlinePreprocessor`).  `from torchaudio.transforms import ...` and
`from torchaudio.functional import ...` bind only the imported symbols,
never the package name `torchaudio` itself. -/
def moduleGlobals : List String :=
  ["os", "load", "np", "librosa", "scipy", "Spectrogram", "MelScale", "MFCC",
   "magphase", "compute_deltas", "partial", "torch", "hann", "read",
   "adnoise", "OnlinePreprocessor"]

/-- The Python builtins referenced anywhere in `preprocess.py`. -/
def pyBuiltins : List String :=
  ["super", "type", "max", "int", "bool", "list", "print", "range", "dict"]

/-- The body of `__init__` (lines 41-54) as read/write name lists, in source
order.  Line 43 reads `hop` and `win`; lines 50-51 read `torchaudio`. -/
def initStmts : List PyStmt :=
  [⟨["super", "OnlinePreprocessor", "self"], []⟩,
   ⟨["n_freq"], ["n_fft"]⟩,
   ⟨["self", "n_fft", "hop", "win"], []⟩,
   ⟨["self", "torch", "win"], []⟩,
   ⟨["self"], []⟩,
   ⟨["self", "partial", "torch"], []⟩,
   ⟨["self", "partial", "torchaudio"], []⟩,
   ⟨["self", "partial", "torchaudio"], []⟩,
   ⟨["self", "feat_list"], []⟩,
   ⟨["self", "torch", "sample_rate"], []⟩]

/-- The full scope visible to `__init__` on entry. -/
def initScope : List String := initParams ++ moduleGlobals ++ pyBuiltins

/-- Concrete argument values passed to the constructor.  Python binds the
parameter names independently of the values, so name resolution in the body
cannot depend on this record. -/
structure InitArgs where
  sample_rate : Int := 16000
  win_len : Int := 512
  hop_len : Int := 256
  n_freq : Int := 257
  n_mels : Int := 40
  n_mfcc : Int := 13

/-- `OnlinePreprocessor.__init__` at the name-resolution level. -/
def runInit (_ : InitArgs) : Except PyErr Unit :=
  execStmts initScope initStmts

/-! ### Shape semantics of the analysis and synthesis transforms -/

/-- Frame count of `torch.stft` with `center=True`: the signal of length `T`
is padded by `n_fft / 2` on both ends (reflect mode) and framed with the
given hop, giving `(T + 2 * (n_fft / 2) - n_fft) / hop + 1` frames.
Models the call at preprocess.py line 90 with the arguments fixed at
line 49. -/
def stftFrames (T n_fft hop : ℕ) : ℕ := (T + 2 * (n_fft / 2) - n_fft) / hop + 1

/-- One-sided frequency-bin count of a real-input transform. -/
def freqBins (n_fft : ℕ) : ℕ := n_fft / 2 + 1

/-- Shape of the complex spectrogram computed by `forward` (lines 87-92):
the input must have at least 3 dimensions; the last (time) dimension is
replaced by `(freq_bins, time_frames, 2)`. -/
def analyzeShape (s : List ℕ) (n_fft hop : ℕ) : Option (List ℕ) :=
  if s.length < 3 then none
  else some (s.dropLast ++ [freqBins n_fft, stftFrames (s.getLastD 0) n_fft hop, 2])

/-- Output length of the synthesis transform as invoked by
`OnlinePreprocessor.istft` (line 133): the underlying
`torchaudio.functional.istft` is called without a target `length`, so the
overlap-add result covers `n_fft + hop * (frames - 1)` samples and, since
`center=True`, `n_fft / 2` samples are trimmed from both ends. -/
def istftOutLen (frames n_fft hop : ℕ) : ℕ :=
  n_fft + hop * (frames - 1) - 2 * (n_fft / 2)

/-! ### The feature model of `select_feat` (lines 99-113)

A single-channel feature map is a matrix whose rows are feature channels
and whose inner lists are time frames, modelling a tensor slice of shape
`(feat_dim, time)` as manipulated inside `select_feat`.  The value type is
kept polymorphic over a `Field` so that the definitions stay executable;
the square root and logarithm of the source are passed as function
arguments and are instantiated with `Real.sqrt` and `Real.log` in the
theorems. -/

/-- Feature matrix: rows are feature channels, columns are time frames. -/
abbrev Feat (α : Type) := List (List α)

/-- The stabilizer `1e-10` used by the log and CMVN steps. -/
def eps10 {α : Type} [Field α] : α := 1 / 10 ^ 10

/-- Mean along the time axis: models `tensor.mean(dim=-1)` on one row. -/
def meanL {α : Type} [Field α] (r : List α) : α := r.sum / r.length

/-- Standard deviation along the time axis: models `tensor.std(dim=-1)` on
one row (the torch default is the unbiased estimator, dividing by
`n - 1`); `s` is the square-root function of the value type. -/
def stdL {α : Type} [Field α] (s : α → α) (r : List α) : α :=
  s ((r.map (fun x => (x - meanL r) ^ 2)).sum / ((r.length : α) - 1))

/-- CMVN on one feature row (line 111):
`(x - mean(dim=-1)) / (std(dim=-1) + 1e-10)`. -/
def cmvnRow {α : Type} [Field α] (s : α → α) (r : List α) : List α :=
  r.map (fun x => (x - meanL r) / (stdL s r + eps10))

/-- CMVN on a feature matrix: the `keepdim` mean/std broadcast makes the
normalization act independently on every feature row. -/
def cmvnFeat {α : Type} [Field α] (s : α → α) (f : Feat α) : Feat α :=
  f.map (cmvnRow s)

/-- Log step (line 103): `(raw_feat + 1e-10).log()` element-wise; `lg` is
the logarithm of the value type. -/
def logFeat {α : Type} [Field α] (lg : α → α) (f : Feat α) : Feat α :=
  f.map (fun r => r.map (fun x => lg (x + eps10)))

/-- Time index with replicate padding, as used by the delta filter at the
sequence boundaries. -/
def getRep {α : Type} [Field α] (r : List α) (i : ℤ) : α :=
  r.getD (min (max i 0) ((r.length : ℤ) - 1)).toNat 0

/-- `torchaudio.functional.compute_deltas` on one row, with the default
window length 5 (so the half-window is 2 and the normalizer is
`2 * (1 + 4) = 10`):
`d[t] = (1 * (x[t+1] - x[t-1]) + 2 * (x[t+2] - x[t-2])) / 10`,
with replicate padding at the edges. -/
def deltaRow {α : Type} [Field α] (r : List α) : List α :=
  (List.range r.length).map (fun t =>
    ((getRep r ((t : ℤ) + 1) - getRep r ((t : ℤ) - 1)) +
      2 * (getRep r ((t : ℤ) + 2) - getRep r ((t : ℤ) - 2))) / 10)

/-- `compute_deltas` on a feature matrix: applied row-wise. -/
def computeDeltas {α : Type} [Field α] (f : Feat α) : Feat α := f.map deltaRow

/-- The delta loop of lines 104-107: `feats = [raw_feat]`, then `delta`
times append `compute_deltas(feats[-1])`. -/
def deltaLoop {α : Type} [Field α] : ℕ → List (Feat α) → List (Feat α)
  | 0, acc => acc
  | n + 1, acc => deltaLoop n (acc ++ [computeDeltas (acc.getLastD [])])

/-- Lines 104-108: run the delta loop on `[raw]` and concatenate along the
feature-dimension axis (`torch.cat(feats, dim=-2)` concatenates the row
blocks). -/
def deltaStack {α : Type} [Field α] (d : ℕ) (raw : Feat α) : Feat α :=
  (deltaLoop d [raw]).flatten

/-- The `k`-th order derivative of a feature: `deltaSeq raw 0 = raw` and
each successive derivative is computed from the previous one. -/
def deltaSeq {α : Type} [Field α] (raw : Feat α) : ℕ → Feat α
  | 0 => raw
  | k + 1 => computeDeltas (deltaSeq raw k)

/-- The five feature types accepted by `get_feat_config` (line 67). -/
inductive FeatType where
  | complx
  | linear
  | phase
  | mel
  | mfcc
deriving DecidableEq

/-- A feature request, the keyword arguments of `select_feat` (line 99)
with the defaults of `get_feat_config` (line 66). -/
structure FeatArgs where
  featType : FeatType
  channel : ℕ := 0
  log : Bool := false
  delta : ℕ := 0
  cmvn : Bool := false
deriving DecidableEq

/-- The `variables` dictionary passed to `select_feat` (line 115): for each
feature type, the list of its per-channel feature matrices (the slices of
the `(*, channel, feat_dim, time)` tensor along the channel axis). -/
abbrev Vars (α : Type) := FeatType → List (Feat α)

/-- `select_feat` (lines 99-112) on a single batch item: select the
requested channel (an out-of-range index is an error, hence `none`), then
optionally the stabilized log, then the delta loop with concatenation,
then optionally CMVN. -/
def selectFeat {α : Type} [Field α] (s lg : α → α) (vars : Vars α)
    (a : FeatArgs) : Option (Feat α) :=
  match (vars a.featType).get? a.channel with
  | none => none
  | some raw0 =>
    let raw := if a.log then logFeat lg raw0 else raw0
    let feats := deltaStack a.delta raw
    some (if a.cmvn then cmvnFeat s feats else feats)

/-- Modelled from the words of the spec (section 4.5): the selector runs the
fixed step order channel-select, then log, then delta, then CMVN, each
step applied only when requested. -/
def specSelectPipeline {α : Type} [Field α] (s lg : α → α) (vars : Vars α)
    (a : FeatArgs) : Option (Feat α) :=
  ((vars a.featType).get? a.channel).map (fun raw =>
    (fun f => if a.cmvn then cmvnFeat s f else f)
      (deltaStack a.delta ((fun f => if a.log then logFeat lg f else f) raw)))

/-- `feat.transpose(-1, -2)` (line 63) on a rectangular `(feat_dim, time)`
matrix: the output is indexed time-first. -/
def transposeFeat {α : Type} [Field α] (f : Feat α) : Feat α :=
  (List.range (f.headD []).length).map (fun t => f.map (fun r => r.getD t 0))

/-- Lines 115-116: process every requested spec in order with
`select_feat`, then transpose each resulting tensor. -/
def forwardSelect {α : Type} [Field α] (s lg : α → α) (vars : Vars α)
    (specs : List FeatArgs) : List (Option (Feat α)) :=
  (specs.map (selectFeat s lg vars)).map (Option.map transposeFeat)

/-! ### The trace model of `forward` (lines 80-117)

For the error-handling claims only the input shape, the requested channel
indices and the order of the numeric transforms matter, so `forward` is
modelled as a function from the input shape and the request list to the
list of numeric-transform events it performs together with its outcome.
The error taxonomy of the spec names the line 87 shape assertion `ShapeError`
and the out-of-range channel selection failure of line 100
`ChannelRangeError`. -/

/-- Numeric transform events of `forward`, in the order of lines 90-95. -/
inductive Ev where
  | stft
  | magphase
  | melscale
  | mfcc
deriving DecidableEq

/-- Errors raised by `forward`, named after the error taxonomy of the spec. -/
inductive RunErr where
  | shapeError
  | channelRangeError
deriving DecidableEq

/-- Number of channels of a wav shaped `(*, channel, time)`: the
second-to-last entry of the shape. -/
def channelCount (shape : List ℕ) : ℕ := shape.getD (shape.length - 2) 0

/-- The numeric transforms run by `forward` before any selection:
STFT (line 90), magphase (line 93), mel scale (line 94), MFCC (line 95). -/
def numericEvents : List Ev := [.stft, .magphase, .melscale, .mfcc]

/-- Trace-level `forward`: the line 87 assertion rejects inputs with fewer
than 3 dimensions before any work; otherwise all four numeric transforms
run (lines 90-95), and only afterwards does the per-spec selection of
line 100 fail on the first request whose channel is out of range. -/
def forwardRun (shape : List ℕ) (specs : List FeatArgs) :
    List Ev × Except RunErr Unit :=
  if shape.length < 3 then ([], .error .shapeError)
  else
    match specs.find? (fun a => decide (channelCount shape ≤ a.channel)) with
    | some _ => (numericEvents, .error .channelRangeError)
    | none => (numericEvents, .ok ())

/-- A concrete request whose channel index 5 exceeds the 2 channels of a
`(1, 2, 8)` input. -/
def badSpec : FeatArgs := ⟨FeatType.linear, 5, false, 0, false⟩

/-- Finiteness model for the stabilized log of line 103: the IEEE
logarithm is finite exactly when its argument is positive (`log 0` is
`-inf` and the log of a negative number is NaN), so a feature produces
only finite log values iff every stabilized argument `x + 1e-10` is
positive. -/
def logArgsOk (f : Feat ℝ) : Prop := ∀ r ∈ f, ∀ x ∈ r, 0 < x + eps10

/-! ### The two input forms of `OnlinePreprocessor.istft` (lines 119-133)

`istft` accepts a paired complex tensor shaped `(freq, time, 2)` or a
flattened interleaved tensor shaped `(time, freq * 2)`; the latter is
recognized by its last dimension differing from 2 (line 127) and is then
rebuilt by `view(*shape[:-1], -1, 2).transpose(-2, -3)` (line 130).  Both
forms are modelled as functions over `Fin` index spaces; the row-major
`view` makes consecutive entries `2*f` and `2*f + 1` of an interleaved
time row the real/imaginary pair of frequency `f`. -/

/-- Paired complex spectrogram `(freq, time, 2)`. -/
abbrev Paired (F T : ℕ) := Fin F → Fin T → ℝ × ℝ

/-- Flattened interleaved spectrogram `(time, freq * 2)`. -/
abbrev Interleaved (F T : ℕ) := Fin T → Fin (2 * F) → ℝ

/-- The interleaved flattening corresponding to a paired spectrogram:
entry `(t, 2*f + c)` holds component `c` of entry `(f, t, ·)`. -/
def interleaveOf {F T : ℕ} (p : Paired F T) : Interleaved F T := fun t j =>
  have hj : j.val / 2 < F := by
    have := j.isLt
    omega
  if j.val % 2 = 0 then (p ⟨j.val / 2, hj⟩ t).1 else (p ⟨j.val / 2, hj⟩ t).2

/-- The `view(*shape[:-1], -1, 2)` step of line 130: pair up consecutive
entries of every interleaved time row. -/
def viewAsPairs {F T : ℕ} (i : Interleaved F T) (t : Fin T) (f : Fin F) : ℝ × ℝ :=
  have h1 : 2 * f.val < 2 * F := by
    have := f.isLt
    omega
  have h2 : 2 * f.val + 1 < 2 * F := by
    have := f.isLt
    omega
  (i t ⟨2 * f.val, h1⟩, i t ⟨2 * f.val + 1, h2⟩)

/-- Line 130 in full: `view` into pairs, then `transpose(-2, -3)`, turning
an interleaved `(time, freq * 2)` input into the paired `(freq, time, 2)`
form consumed by the inverse transform. -/
def istftPrep {F T : ℕ} (i : Interleaved F T) : Paired F T := fun f t =>
  viewAsPairs i t f

/-! ### Theorems -/

/-- The delta filter preserves the number of feature rows. -/
theorem computeDeltas_length {α : Type} [Field α] (f : Feat α) :
    (computeDeltas f).length = f.length :=
  List.length_map _ _

/-- Every derivative order has as many rows as the original feature. -/
theorem deltaSeq_length {α : Type} [Field α] (raw : Feat α) :
    ∀ k, (deltaSeq raw k).length = raw.length
  | 0 => rfl
  | k + 1 => (computeDeltas_length _).trans (deltaSeq_length raw k)

/-- Invariant of the delta loop: starting from the first `k + 1` derivative
orders, `d` more iterations produce the first `d + k + 1` orders. -/
theorem deltaLoop_invariant {α : Type} [Field α] (raw : Feat α) :
    ∀ d k, deltaLoop d ((List.range (k + 1)).map (deltaSeq raw)) =
      (List.range (d + k + 1)).map (deltaSeq raw) := by
  intro d
  induction d with
  | zero =>
    intro k
    rw [Nat.zero_add]
    rfl
  | succ n ih =>
    intro k
    have hlast : (((List.range (k + 1)).map (deltaSeq raw)).getLastD []) =
        deltaSeq raw k := by
      rw [List.range_succ, List.map_append]
      simp
    show deltaLoop n _ = _
    rw [hlast]
    have happ : (List.range (k + 1)).map (deltaSeq raw) ++
        [computeDeltas (deltaSeq raw k)] =
        (List.range (k + 1 + 1)).map (deltaSeq raw) := by
      rw [List.range_succ (n := k + 1), List.map_append]
      rfl
    rw [happ, ih (k + 1)]
    have harith : n + (k + 1) + 1 = n + 1 + k + 1 := by omega
    rw [harith]

/-- Sum of an affine image: subtracting `a` and dividing by `c` pointwise
divides the shifted sum by `c`. -/
theorem sum_map_sub_div (l : List ℝ) (a c : ℝ) :
    (l.map (fun x => (x - a) / c)).sum = (l.sum - l.length * a) / c := by
  induction l with
  | nil => simp
  | cons x xs ih =>
    simp only [List.map_cons, List.sum_cons, List.length_cons, ih]
    rw [div_add_div_same]
    push_cast
    ring_nf

/-- Sum of squares of a scaled image. -/
theorem sum_map_sq_div (l : List ℝ) (a c : ℝ) :
    (l.map (fun x => ((x - a) / c) ^ 2)).sum =
      (l.map (fun x => (x - a) ^ 2)).sum / c ^ 2 := by
  induction l with
  | nil => simp
  | cons x xs ih =>
    simp only [List.map_cons, List.sum_cons, ih]
    rw [div_pow, div_add_div_same]

/-- The time-mean of a CMVN-normalized row is exactly zero. -/
theorem meanL_cmvnRow (s : ℝ → ℝ) (r : List ℝ) (h : 1 ≤ r.length) :
    meanL (cmvnRow s r) = 0 := by
  have hn : (r.length : ℝ) ≠ 0 := by
    have hpos : 0 < r.length := h
    exact ne_of_gt (by exact_mod_cast hpos)
  show (cmvnRow s r).sum / ((cmvnRow s r).length : ℝ) = 0
  rw [cmvnRow, sum_map_sub_div, List.length_map]
  have hzero : r.sum - (r.length : ℝ) * meanL r = 0 := by
    rw [meanL]
    field_simp
  rw [hzero]
  simp

/-- The positive CMVN divisor. -/
theorem cmvn_divisor_pos (r : List ℝ) : 0 < stdL Real.sqrt r + eps10 :=
  add_pos_of_nonneg_of_pos (Real.sqrt_nonneg _) (by norm_num [eps10])

/-- The time-std of a CMVN-normalized row is the original std divided by
the stabilized std. -/
theorem stdL_cmvnRow (r : List ℝ) (h2 : 2 ≤ r.length) :
    stdL Real.sqrt (cmvnRow Real.sqrt r) =
      stdL Real.sqrt r / (stdL Real.sqrt r + eps10) := by
  have hc : 0 < stdL Real.sqrt r + eps10 := cmvn_divisor_pos r
  have hmean0 : meanL (cmvnRow Real.sqrt r) = 0 :=
    meanL_cmvnRow _ r (le_trans one_le_two h2)
  have hV : 0 ≤ (r.map (fun x => (x - meanL r) ^ 2)).sum / ((r.length : ℝ) - 1) := by
    apply div_nonneg
    · exact List.sum_nonneg (by
        intro y hy
        obtain ⟨x, -, rfl⟩ := List.mem_map.mp hy
        exact sq_nonneg _)
    · have : (2 : ℝ) ≤ (r.length : ℝ) := by exact_mod_cast h2
      linarith
  show Real.sqrt _ = _
  rw [hmean0]
  simp only [sub_zero, cmvnRow, List.map_map, List.length_map]
  have hcomp : ((fun x => x ^ 2) ∘ fun x => (x - meanL r) / (stdL Real.sqrt r + eps10)) =
      fun x => ((x - meanL r) / (stdL Real.sqrt r + eps10)) ^ 2 := rfl
  rw [hcomp, sum_map_sq_div, div_right_comm, Real.sqrt_div hV, Real.sqrt_sq hc.le]
  rfl

/-- Claim C5: CMVN applies `(x - mean_t(x)) / (std_t(x) + 1e-10)` per
feature row; for any non-degenerate input (at least 2 frames and time-std
at least `1e-5` per row) the result has time-mean exactly 0 and time-std
within `1e-5` of 1 in every feature row. -/
theorem c5_cmvn_normalizes :
    ∀ f : Feat ℝ,
      (∀ r ∈ f, 2 ≤ r.length ∧ 1 / 10 ^ 5 ≤ stdL Real.sqrt r) →
      ∀ g ∈ cmvnFeat Real.sqrt f,
        meanL g = 0 ∧ |stdL Real.sqrt g - 1| ≤ 1 / 10 ^ 5 := by
  intro f hf g hg
  obtain ⟨r, hr, rfl⟩ := List.mem_map.mp hg
  obtain ⟨h2, hstd⟩ := hf r hr
  refine ⟨meanL_cmvnRow _ r (le_trans one_le_two h2), ?_⟩
  rw [stdL_cmvnRow r h2]
  have hc : 0 < stdL Real.sqrt r + eps10 := cmvn_divisor_pos r
  have hdiff : stdL Real.sqrt r / (stdL Real.sqrt r + eps10) - 1 =
      -(eps10 / (stdL Real.sqrt r + eps10)) := by
    field_simp
  rw [hdiff, abs_neg, abs_of_pos (div_pos (by norm_num [eps10]) hc)]
  rw [div_le_iff₀ hc]
  have hscale := mul_le_mul_of_nonneg_left hstd (by norm_num : (0 : ℝ) ≤ 1 / 10 ^ 5)
  have heps : eps10 = (1 : ℝ) / 10 ^ 10 := rfl
  rw [heps] at *
  nlinarith [Real.sqrt_nonneg ((r.map (fun x => (x - meanL r) ^ 2)).sum / ((r.length : ℝ) - 1))]

/-- Witness for C5 on the concrete feature `[[0, 1, 2]]`, whose single row
has mean 1 and unbiased std exactly 1. -/
theorem c5_cmvn_witness :
    (∀ r ∈ ([[(0 : ℝ), 1, 2]] : Feat ℝ), 2 ≤ r.length ∧ 1 / 10 ^ 5 ≤ stdL Real.sqrt r) ∧
    ∀ g ∈ cmvnFeat Real.sqrt ([[(0 : ℝ), 1, 2]] : Feat ℝ),
      meanL g = 0 ∧ |stdL Real.sqrt g - 1| ≤ 1 / 10 ^ 5 := by
  have hstd1 : stdL Real.sqrt [(0 : ℝ), 1, 2] = 1 := by
    have harg : (([(0 : ℝ), 1, 2].map (fun x => (x - meanL [(0 : ℝ), 1, 2]) ^ 2)).sum /
        (([(0 : ℝ), 1, 2].length : ℝ) - 1)) = 1 := by
      norm_num [meanL]
    rw [stdL, harg, Real.sqrt_one]
  have hyp : ∀ r ∈ ([[(0 : ℝ), 1, 2]] : Feat ℝ),
      2 ≤ r.length ∧ 1 / 10 ^ 5 ≤ stdL Real.sqrt r := by
    intro r hr
    have : r = [(0 : ℝ), 1, 2] := by simpa using hr
    subst this
    exact ⟨by norm_num, by rw [hstd1]; norm_num⟩
  exact ⟨hyp, c5_cmvn_normalizes _ hyp⟩

/-- Claim C4: for every requested `delta = d` on a feature of dimension `D`,
the pre-CMVN output stacks the blocks `[original, 1st, ..., d-th]`
derivative in order along the feature axis, each successive derivative
being computed from the most recently produced one (`deltaSeq`), and the
output feature dimension is `(d + 1) * D`. -/
theorem c4_delta_stacking {α : Type} [Field α] :
    ∀ (d : ℕ) (raw : Feat α),
      deltaStack d raw = ((List.range (d + 1)).map (deltaSeq raw)).flatten ∧
      (deltaStack d raw).length = (d + 1) * raw.length := by
  intro d raw
  have hloop : deltaLoop d [raw] = (List.range (d + 1)).map (deltaSeq raw) := by
    have h0 : [raw] = (List.range (0 + 1)).map (deltaSeq raw) := rfl
    rw [h0, deltaLoop_invariant raw d 0]
  constructor
  · rw [deltaStack, hloop]
  · rw [deltaStack, hloop, List.length_flatten]
    have hmap : ((List.range (d + 1)).map (deltaSeq raw)).map List.length =
        (List.range (d + 1)).map (fun _ => raw.length) := by
      rw [List.map_map]
      exact List.map_congr_left (fun k _ => deltaSeq_length raw k)
    rw [hmap]
    simp [List.map_const', Nat.mul_comm]

/-- Claim C2: for every argument combination, constructing
`OnlinePreprocessor` raises `NameError` before returning an instance: the
`__init__` body reads the unbound names `hop` and `win` (line 43) and the
unbound module name `torchaudio` (lines 50-51), and execution stops at the
first of these (`hop`). -/
theorem c2_init_raises_name_error :
    "hop" ∉ initScope ∧ "win" ∉ initScope ∧ "torchaudio" ∉ initScope ∧
    ∀ a : InitArgs, runInit a = .error (.nameError "hop") :=
  ⟨by decide, by decide, by decide, fun _ => rfl⟩

/-- Claim C1 (recording the code bug): the round-trip asserted by
`test_istft` cannot hold.  First, no pipeline instance can be constructed
(`__init__` raises `NameError` on `hop` for every argument combination).
Second, even idealizing the name bugs, at the default configuration
(`T = 16000`, `n_fft = 512`, `hop = 256`) the synthesis output has
`istftOutLen = 15872` samples, not the 16000 of the input waveform, so
reconstruction within any tolerance is impossible. -/
theorem c1_roundtrip_impossible :
    (∀ a : InitArgs, runInit a = Except.error (PyErr.nameError "hop")) ∧
    istftOutLen (stftFrames 16000 512 256) 512 256 = 15872 ∧
    istftOutLen (stftFrames 16000 512 256) 512 256 ≠ 16000 :=
  ⟨fun _ => rfl, by decide, by decide⟩

/-- Claim C3: for input shaped `(2, 2, 16000)` with `n_fft = 512` and
`hop = 256`, the analysis transform yields a complex spectrogram shaped
`(2, 2, 257, 63, 2)` (63 time frames, 257 one-sided frequency bins); in
general, for an even `n_fft`, the centered frame count is
`T / hop + 1` and the one-sided bin count is `n_fft / 2 + 1`. -/
theorem c3_analyze_shape_contract :
    ∀ T n_fft hop : ℕ, 2 ∣ n_fft →
      (stftFrames T n_fft hop = T / hop + 1 ∧ freqBins n_fft = n_fft / 2 + 1) ∧
      analyzeShape [2, 2, 16000] 512 256 = some [2, 2, 257, 63, 2] := by
  intro T n_fft hop h
  refine ⟨⟨?_, rfl⟩, by decide⟩
  obtain ⟨k, rfl⟩ := h
  unfold stftFrames
  have h1 : T + 2 * (2 * k / 2) - 2 * k = T := by omega
  rw [h1]

/-- Witness for C3 at the concrete configuration of the shape contract. -/
theorem c3_shape_witness :
    (2 ∣ 512) ∧
    ((stftFrames 16000 512 256 = 16000 / 256 + 1 ∧ freqBins 512 = 512 / 2 + 1) ∧
      analyzeShape [2, 2, 16000] 512 256 = some [2, 2, 257, 63, 2]) :=
  ⟨by decide, c3_analyze_shape_contract 16000 512 256 (by decide)⟩

/-- The source selector equals the spec-ordered pipeline. -/
theorem selectFeat_eq_specPipeline {α : Type} [Field α] (s lg : α → α)
    (vars : Vars α) (a : FeatArgs) :
    selectFeat s lg vars a = specSelectPipeline s lg vars a := by
  unfold selectFeat specSelectPipeline
  cases (vars a.featType).get? a.channel with
  | none => rfl
  | some raw0 => rfl

/-- Transposing a nonempty rectangular feature swaps the axes: the outer
(formerly feature) axis becomes time. -/
theorem transposeFeat_shape {α : Type} [Field α] (f : Feat α) (T : ℕ)
    (hne : f ≠ []) (hrect : ∀ r ∈ f, r.length = T) :
    (transposeFeat f).length = T ∧ ∀ g ∈ transposeFeat f, g.length = f.length := by
  have hhead : (f.headD []).length = T := by
    cases f with
    | nil => exact absurd rfl hne
    | cons r rest => exact hrect r (List.mem_cons_self r rest)
  constructor
  · rw [transposeFeat, List.length_map, List.length_range, hhead]
  · intro g hg
    obtain ⟨t, -, rfl⟩ := List.mem_map.mp hg
    exact List.length_map _ _

/-- Entries of the transposed feature: position `(t, d)` of the transpose
holds position `(d, t)` of the original. -/
theorem transposeFeat_entry {α : Type} [Field α] (f : Feat α) (T t d : ℕ)
    (hrect : ∀ r ∈ f, r.length = T) (ht : t < T) (hd : d < f.length) :
    ((transposeFeat f).getD t []).getD d 0 = (f.getD d []).getD t 0 := by
  have hhead : (f.headD []).length = T := by
    cases f with
    | nil => simp at hd
    | cons r rest => exact hrect r (List.mem_cons_self r rest)
  have houter : (transposeFeat f).getD t [] = f.map (fun r => r.getD t 0) := by
    rw [transposeFeat, hhead]
    rw [List.getD_eq_getElem?_getD, List.getElem?_map, List.getElem?_range ht]
    rfl
  rw [houter]
  simp [List.getD_eq_getElem?_getD, List.getElem?_eq_getElem hd]

/-- Claim C6: every request is processed by the fixed step order
channel-select, log, delta, CMVN (the source selector equals the
spec-ordered pipeline); the returned list has one entry per request in
request order; and every returned tensor is transposed so that time is the
second-to-last (outer) axis and the feature dimension the last. -/
theorem c6_pipeline_order :
    ∀ (vars : Vars ℝ) (specs : List FeatArgs) (f : Feat ℝ) (T : ℕ),
      f ≠ [] → (∀ r ∈ f, r.length = T) →
      (∀ a, selectFeat Real.sqrt Real.log vars a =
        specSelectPipeline Real.sqrt Real.log vars a) ∧
      ((forwardSelect Real.sqrt Real.log vars specs).length = specs.length ∧
        ∀ i : ℕ, (forwardSelect Real.sqrt Real.log vars specs)[i]? =
          (specs[i]?).map
            (fun a => (selectFeat Real.sqrt Real.log vars a).map transposeFeat)) ∧
      ((transposeFeat f).length = T ∧
        (∀ g ∈ transposeFeat f, g.length = f.length) ∧
        ∀ t d : ℕ, t < T → d < f.length →
          ((transposeFeat f).getD t []).getD d 0 = (f.getD d []).getD t 0) := by
  intro vars specs f T hne hrect
  refine ⟨fun a => selectFeat_eq_specPipeline _ _ vars a, ⟨?_, ?_⟩, ?_, ?_, ?_⟩
  · rw [forwardSelect, List.length_map, List.length_map]
  · intro i
    rw [forwardSelect, List.getElem?_map, List.getElem?_map]
    cases specs[i]? with
    | none => rfl
    | some a => rfl
  · exact (transposeFeat_shape f T hne hrect).1
  · exact (transposeFeat_shape f T hne hrect).2
  · intro t d ht hd
    exact transposeFeat_entry f T t d hrect ht hd

/-- Witness for C6 on a concrete one-row feature and empty request list. -/
theorem c6_pipeline_witness :
    (([[(0 : ℝ), 1]] : Feat ℝ) ≠ [] ∧ ∀ r ∈ ([[(0 : ℝ), 1]] : Feat ℝ), r.length = 2) ∧
    ((∀ a, selectFeat Real.sqrt Real.log (fun _ => []) a =
        specSelectPipeline Real.sqrt Real.log (fun _ => []) a) ∧
      ((forwardSelect Real.sqrt Real.log (fun _ => []) []).length = ([] : List FeatArgs).length ∧
        ∀ i : ℕ, (forwardSelect Real.sqrt Real.log (fun _ => []) [])[i]? =
          (([] : List FeatArgs)[i]?).map
            (fun a => (selectFeat Real.sqrt Real.log (fun _ => []) a).map transposeFeat)) ∧
      ((transposeFeat ([[(0 : ℝ), 1]] : Feat ℝ)).length = 2 ∧
        (∀ g ∈ transposeFeat ([[(0 : ℝ), 1]] : Feat ℝ),
          g.length = ([[(0 : ℝ), 1]] : Feat ℝ).length) ∧
        ∀ t d : ℕ, t < 2 → d < ([[(0 : ℝ), 1]] : Feat ℝ).length →
          ((transposeFeat ([[(0 : ℝ), 1]] : Feat ℝ)).getD t []).getD d 0 =
            (([[(0 : ℝ), 1]] : Feat ℝ).getD d []).getD t 0)) :=
  ⟨⟨by simp, by simp⟩,
    c6_pipeline_order (fun _ => []) [] [[(0 : ℝ), 1]] 2 (by simp) (by simp)⟩

/-- Claim C7: `forward` fails on every input with fewer than 3 dimensions
before producing any event or feature output, and the failure is exactly
the shape check: inputs with at least 3 dimensions never produce the
shape error. -/
theorem c7_shape_check :
    ∀ (shape : List ℕ) (specs : List FeatArgs),
      ((forwardRun shape specs).2 = .error .shapeError ↔ shape.length < 3) ∧
      (shape.length < 3 → forwardRun shape specs = ([], .error .shapeError)) := by
  intro shape specs
  unfold forwardRun
  by_cases h : shape.length < 3
  · rw [if_pos h]
    exact ⟨⟨fun _ => h, fun _ => rfl⟩, fun _ => rfl⟩
  · rw [if_neg h]
    refine ⟨⟨?_, fun hlt => absurd hlt h⟩, fun hlt => absurd hlt h⟩
    intro hcontra
    exfalso
    cases hfind : specs.find? (fun a => decide (channelCount shape ≤ a.channel)) with
    | none => rw [hfind] at hcontra; simp at hcontra
    | some a => rw [hfind] at hcontra; simp at hcontra

/-- Witness for C7: a 1-dimensional input is rejected with the shape
error and an empty event trace. -/
theorem c7_shape_check_witness :
    forwardRun [5] [] = ([], Except.error RunErr.shapeError) :=
  (c7_shape_check [5] []).2 (by norm_num)

/-- Counterexample for claim C8 as stated: it is false that an
out-of-range channel request makes `forward` fail with the channel error
before any numeric transform work.  On the valid 3-dimensional shape
`(1, 2, 8)` with a channel-5 request, `forward` does return the channel
error, but its trace already contains the STFT (and the other numeric
transforms): the selection error of line 100 happens only after
lines 90-95 have run. -/
theorem c8_not_eager_counterexample :
    ¬ (∀ (shape : List ℕ) (specs : List FeatArgs),
        3 ≤ shape.length →
        (∃ a ∈ specs, channelCount shape ≤ a.channel) →
        (forwardRun shape specs).2 = Except.error RunErr.channelRangeError ∧
        (forwardRun shape specs).1 = []) := by
  intro h
  have hbad := h [1, 2, 8] [badSpec] (by norm_num)
    ⟨badSpec, by simp, by decide⟩
  exact absurd hbad.2 (by decide)

/-- Claim C8 amended: an out-of-range channel request does make `forward`
fail with `ChannelRangeError`, but only during feature selection, after
all four numeric transforms (STFT, magphase, mel scale, MFCC) have
already been performed. -/
theorem c8_channel_error_after_numeric_work :
    ∀ (shape : List ℕ) (specs : List FeatArgs),
      3 ≤ shape.length →
      (∃ a ∈ specs, channelCount shape ≤ a.channel) →
      forwardRun shape specs = (numericEvents, Except.error RunErr.channelRangeError) := by
  intro shape specs h3 hex
  unfold forwardRun
  rw [if_neg (by omega)]
  cases hfind : specs.find? (fun a => decide (channelCount shape ≤ a.channel)) with
  | some a => rfl
  | none =>
    exfalso
    obtain ⟨a, ha, hle⟩ := hex
    have hnot := List.find?_eq_none.mp hfind a ha
    simp at hnot
    omega

/-- Witness for the amended C8 at the concrete failing request. -/
theorem c8_channel_error_witness :
    forwardRun [1, 2, 8] [badSpec] =
      (numericEvents, Except.error RunErr.channelRangeError) :=
  c8_channel_error_after_numeric_work [1, 2, 8] [badSpec] (by norm_num)
    ⟨badSpec, by simp, by decide⟩

/-- Counterexample for claim C9 as stated: it is false that log-scaled
feature extraction produces finite values for every input.  A phase
feature is a legal selection target, and phases are outputs of
`atan2(imag, real)` (modelled by `Complex.arg`), which reaches
`-pi/2` at the complex value `(0, -1)` = `-i`.  On that feature the
log=true request is processed, but the stabilized argument
`-pi/2 + 1e-10` is negative, so the IEEE logarithm would be NaN, not
finite. -/
theorem c9_log_finiteness_counterexample :
    selectFeat Real.sqrt Real.log
        (fun t => match t with
          | FeatType.phase => [[[-(Real.pi / 2)]]]
          | _ => [])
        ⟨FeatType.phase, 0, true, 0, false⟩ =
      some (logFeat Real.log [[-(Real.pi / 2)]]) ∧
    -(Real.pi / 2) = Complex.arg (-Complex.I) ∧
    (-Complex.I).re = 0 ∧ (-Complex.I).im = -1 ∧
    ¬ logArgsOk ([[-(Real.pi / 2)]] : Feat ℝ) := by
  refine ⟨?_, (Complex.arg_neg_I).symm, by simp, by simp, ?_⟩
  · simp [selectFeat, deltaStack, deltaLoop]
  · intro h
    have hmem := h [-(Real.pi / 2)] (by simp) (-(Real.pi / 2)) (by simp)
    have hpi := Real.pi_gt_three
    have heps : eps10 = (1 : ℝ) / 10 ^ 10 := rfl
    rw [heps] at hmem
    linarith

/-- Claim C9 amended: the stabilized log produces only finite values
(positive log arguments) whenever the selected feature is entrywise
nonnegative — which covers the magnitude-based features and in
particular the all-zero input, where every output value is the finite
`log(1e-10)`.  Features with negative entries (phase, real/imaginary
parts) are not covered. -/
theorem c9_log_finite_on_nonneg :
    ∀ f : Feat ℝ, (∀ r ∈ f, ∀ x ∈ r, 0 ≤ x) →
      logArgsOk f ∧
      ∀ r ∈ f, ∀ x ∈ r, x = 0 → Real.log (x + eps10) = Real.log eps10 := by
  intro f hf
  constructor
  · intro r hr x hx
    have hx0 := hf r hr x hx
    have heps : (0 : ℝ) < eps10 := by norm_num [eps10]
    linarith
  · intro r hr x hx hx0
    rw [hx0, zero_add]

/-- Witness for the amended C9 on the all-zero feature. -/
theorem c9_log_witness :
    (∀ r ∈ ([[(0 : ℝ)]] : Feat ℝ), ∀ x ∈ r, 0 ≤ x) ∧
    (logArgsOk ([[(0 : ℝ)]] : Feat ℝ) ∧
      ∀ r ∈ ([[(0 : ℝ)]] : Feat ℝ), ∀ x ∈ r, x = 0 →
        Real.log (x + eps10) = Real.log eps10) :=
  ⟨by simp, c9_log_finite_on_nonneg _ (by simp)⟩

/-- Claim C10: rebuilding the interleaved form by view-into-pairs plus
transpose recovers exactly the paired spectrogram, so feeding `istft` the
interleaved form yields the same reconstruction as feeding the paired
form; moreover for any real configuration (at least 2 frequency bins) the
interleaved last dimension `2 * F` differs from 2, so the line 127 shape
dispatch correctly routes it into the rebuild branch. -/
theorem c10_interleaved_equals_paired :
    ∀ (F T : ℕ) (p : Paired F T),
      istftPrep (interleaveOf p) = p ∧ (2 ≤ F → 2 * F ≠ 2) := by
  intro F T p
  constructor
  · funext f t
    show viewAsPairs (interleaveOf p) t f = p f t
    have h1 : (2 * f.val) % 2 = 0 := by omega
    have h2 : (2 * f.val + 1) % 2 ≠ 0 := by omega
    have hdiv1 : 2 * f.val / 2 = f.val := by omega
    have hdiv2 : (2 * f.val + 1) / 2 = f.val := by omega
    simp [viewAsPairs, interleaveOf, h1, h2, hdiv1, hdiv2]
  · intro h
    omega

/-- Witness for C10 at a concrete 2-bin, 1-frame spectrogram. -/
theorem c10_interleaved_witness :
    istftPrep (interleaveOf ((fun _ _ => ((0 : ℝ), 0)) : Paired 2 1)) =
      (fun _ _ => ((0 : ℝ), 0)) ∧ (2 ≤ 2 → 2 * 2 ≠ 2) :=
  c10_interleaved_equals_paired 2 1 (fun _ _ => ((0 : ℝ), 0))

end Seril
